import Mathlib

/-
Verification of the Flow stream-processing library (Go).

A `Flow[T]` wraps a push iterator `iter.Seq[T]`: a producer that invokes a
sink once per element until the sink stops it or the source is exhausted.
On a finite source the observable behaviour of every operator is the list
of elements it yields, in order; we therefore embed each operator as the
corresponding transformation of that list, mirroring the Go loop structure
statement by statement.  Sizes and counts that are Go `int`s are embedded
as `Int` so that the `<= 0` branches of the source are faithfully present.
-/

namespace Flow

/-- Pair represents a pair of values (operations.go), used by Combine. -/
structure Pair (T U : Type) where
  first : T
  second : U
deriving Repr, DecidableEq

/-- Combine (operations.go): drains both flows into `vals1`/`vals2`, then
yields `Pair vals1[i] vals2[i]` for `i < min (len vals2) (len vals1)`.
The indexed loop over the two drained lists is this paired recursion:
both stop exactly when either list runs out. -/
def Combine {T U : Type} : List T → List U → List (Pair T U)
  | a :: as, b :: bs => ⟨a, b⟩ :: Combine as bs
  | _, _ => []

/-- CombineWith (operations.go): same drained indexed loop as Combine but
yields `combiner vals1[i] vals2[i]`. -/
def CombineWith {T U R : Type} (combiner : T → U → R) : List T → List U → List R
  | a :: as, b :: bs => combiner a b :: CombineWith combiner as bs
  | _, _ => []

/-- Flow.TakeWhile (flow.go): yields elements until the predicate first
fails (`if !predicate(val) { return }`), then stops unconditionally. -/
def TakeWhile {T : Type} (predicate : T → Bool) : List T → List T
  | [] => []
  | val :: rest => if !predicate val then [] else val :: TakeWhile predicate rest

/-- Loop of Flow.SkipWhile (flow.go) with its `skipping` flag: while
`skipping && predicate(val)` the element is dropped; otherwise `skipping`
is set to false and every element is yielded. -/
def SkipWhileLoop {T : Type} (predicate : T → Bool) : Bool → List T → List T
  | _, [] => []
  | skipping, val :: rest =>
    if skipping && predicate val then SkipWhileLoop predicate skipping rest
    else val :: SkipWhileLoop predicate false rest

/-- Flow.SkipWhile (flow.go): the loop starts with `skipping = true`. -/
def SkipWhile {T : Type} (predicate : T → Bool) (l : List T) : List T :=
  SkipWhileLoop predicate true l

/-- Loop of the standalone Merge (operations.go): drains each flow in the
listed order, yielding every element. -/
def MergeLoop {T : Type} : List (List T) → List T
  | [] => []
  | f :: rest => f ++ MergeLoop rest

/-- Standalone Merge (operations.go): with zero arguments it returns
`Empty`, otherwise it concatenates the listed flows in order. -/
def Merge {T : Type} (flows : List (List T)) : List T :=
  if flows.length = 0 then [] else MergeLoop flows

/-- Bound method Flow.Merge (flow.go): with zero additional flows it
returns the receiver itself, otherwise the receiver followed by the
others in listed order. -/
def MergeMethod {T : Type} (f : List T) (others : List (List T)) : List T :=
  if others.length = 0 then f else f ++ MergeLoop others

/-- Loop of Flow.Skip (flow.go): while `count < n` the element is dropped
and `count` incremented, afterwards every element is yielded. -/
def SkipLoop {T : Type} (n : Int) (count : Int) : List T → List T
  | [] => []
  | val :: rest =>
    if count < n then SkipLoop n (count + 1) rest
    else val :: SkipLoop n count rest

/-- Flow.Skip (flow.go): the loop starts with `count = 0`. -/
def Skip {T : Type} (n : Int) (l : List T) : List T :=
  SkipLoop n 0 l

/-- Flow.AnyMatch (flow.go): returns true at the first matching element,
false when the source is exhausted. -/
def AnyMatch {T : Type} (predicate : T → Bool) : List T → Bool
  | [] => false
  | val :: rest => if predicate val then true else AnyMatch predicate rest

/-- Flow.AllMatch (flow.go): returns false at the first non-matching
element, true when the source is exhausted. -/
def AllMatch {T : Type} (predicate : T → Bool) : List T → Bool
  | [] => true
  | val :: rest => if !predicate val then false else AllMatch predicate rest

/-- Flow.NoneMatch (flow.go): literally `!f.AnyMatch(predicate)`. -/
def NoneMatch {T : Type} (predicate : T → Bool) (l : List T) : Bool :=
  !(AnyMatch predicate l)

/-- Loop of Chunk (operations.go): appends each element to the buffer,
emits a copy once it reaches `size`, and emits any nonempty trailing
buffer when the source ends. -/
def ChunkLoop {T : Type} (size : Nat) (chunk : List T) : List T → List (List T)
  | [] => if chunk.length > 0 then [chunk] else []
  | val :: rest =>
    if (chunk ++ [val]).length = size then (chunk ++ [val]) :: ChunkLoop size [] rest
    else ChunkLoop size (chunk ++ [val]) rest

/-- Chunk (operations.go): panics (embedded as `Except.error`) with
"chunk size must be positive" at construction when `size <= 0`, before the
source is touched; otherwise groups elements into slices of `size`. -/
def Chunk {T : Type} (l : List T) (size : Int) : Except String (List (List T)) :=
  if size ≤ 0 then .error "chunk size must be positive"
  else .ok (ChunkLoop size.toNat [] l)

/-- Inner while loop of Window (operations.go): while the buffer holds at
least `size` elements, emit a copy of its first `size` elements, then
advance: clear the buffer when `step >= len buffer`, else drop `step`
elements.  Each iteration shortens the buffer by at least `step >= 1`
elements or clears it, so the initial buffer length bounds the iteration
count; the `fuel` argument carries that bound to make the recursion
structural. -/
def WindowDrain {T : Type} (size step : Nat) : Nat → List T → List (List T) × List T
  | 0, buffer => ([], buffer)
  | fuel + 1, buffer =>
    if size ≤ buffer.length then
      let rest := if buffer.length ≤ step then [] else buffer.drop step
      let r := WindowDrain size step fuel rest
      (buffer.take size :: r.1, r.2)
    else ([], buffer)

/-- Outer loop of Window (operations.go): append each source element to
the buffer, then run the inner while loop; a trailing buffer shorter than
`size` is discarded. -/
def WindowLoop {T : Type} (size step : Nat) (buffer : List T) : List T → List (List T)
  | [] => []
  | val :: rest =>
    let d := WindowDrain size step (buffer ++ [val]).length (buffer ++ [val])
    d.1 ++ WindowLoop size step d.2 rest

/-- Window (operations.go): panics (embedded as `Except.error`) at
construction when `size <= 0` or `step <= 0`, before the source is
touched; otherwise runs the buffering loop starting from an empty
buffer. -/
def Window {T : Type} (l : List T) (size step : Int) : Except String (List (List T)) :=
  if size ≤ 0 then .error "window size must be positive"
  else if step ≤ 0 then .error "window step must be positive"
  else .ok (WindowLoop size.toNat step.toNat [] l)

/-- A possibly-unbounded push source, indexed by position: `none` means
the source ends at that point and yields nothing further. -/
def Src (T : Type) : Type := Nat → Option T

/-- Infinite (flow.go): yields `generator 0, generator 1, ...` and never
terminates on its own (no position is `none`). -/
def Infinite {T : Type} (generator : Nat → T) : Src T :=
  fun i => some (generator i)

/-- Loop of Flow.Take fused with Collect (flow.go): starting at position
`i` with `remaining = n - count` elements still allowed, pull a source
element, yield it, and stop as soon as the count reaches `n` or the
source ends.  The recursion on `remaining` is exactly the loop's
termination argument: at most `n` elements are ever pulled, even from an
unbounded source. -/
def TakeCollectLoop {T : Type} (src : Src T) : Nat → Nat → List T
  | _, 0 => []
  | i, remaining + 1 =>
    match src i with
    | none => []
    | some val => val :: TakeCollectLoop src (i + 1) remaining

/-- Flow.Take (flow.go) followed by Collect: `n <= 0` returns the empty
flow before the source is ever pulled; otherwise the counting loop
collects at most `n` elements. -/
def TakeCollect {T : Type} (src : Src T) (n : Int) : List T :=
  if n ≤ 0 then [] else TakeCollectLoop src 0 n.toNat

/-- GroupBy (operations.go): drains the source, appending each element to
`result[keyFunc val]`.  A Go map is a finite mapping with no intrinsic
key order; its content is embedded as the lookup function from key to
group. -/
def GroupByLoop {T K : Type} [DecidableEq K] (keyFunc : T → K)
    (result : K → List T) : List T → (K → List T)
  | [] => result
  | val :: rest =>
    GroupByLoop keyFunc
      (fun k => if k = keyFunc val then result k ++ [val] else result k) rest

/-- GroupBy (operations.go): the loop starts from the empty map. -/
def GroupBy {T K : Type} [DecidableEq K] (keyFunc : T → K) (l : List T) :
    K → List T :=
  GroupByLoop keyFunc (fun _ => []) l

/-- KeyValue represents a key-value pair (operations.go), used by
GroupByFlow. -/
structure KeyValue (K V : Type) where
  key : K
  value : V
deriving Repr, DecidableEq

/-- GroupByFlow (operations.go): computes the full grouping via GroupBy,
then ranges over the resulting Go map.  Go map iteration order is
unspecified (deliberately randomized by the runtime), so the embedding is
parameterized by the key enumeration `order` that the runtime chooses for
the range loop; an actual run enumerates each key of the map exactly
once, i.e. `order` is some permutation of the grouping's key set. -/
def GroupByFlow {T K : Type} [DecidableEq K] (keyFunc : T → K) (l : List T)
    (order : List K) : List (KeyValue K (List T)) :=
  order.map fun key => ⟨key, GroupBy keyFunc l key⟩

/-- Keys of the source in first-seen order: the order the spec asserts
for the grouping.  (Described by the spec; the Go map holds no such
order.) -/
def FirstSeenKeys {T K : Type} [DecidableEq K] (keyFunc : T → K)
    (seen : List K) : List T → List K
  | [] => []
  | val :: rest =>
    if keyFunc val ∈ seen then FirstSeenKeys keyFunc seen rest
    else keyFunc val :: FirstSeenKeys keyFunc (keyFunc val :: seen) rest

/-- A dynamic Go value as seen by a type assertion against the element
type T: either it is a T, or it is some value of another type. -/
inductive GoVal (T : Type) where
  | ofT (v : T)
  | notT
deriving Repr, DecidableEq

/-- Shapes of the dynamic `source` argument of FlowOf (flow.go),
distinguished exactly as its type switch and reflection branches do.  The
channel branches bridge goroutines and are not embedded. -/
inductive FlowSource (T : Type) where
  | nilSource
  | flowSource (elems : List T)
  | sliceSource (elems : List (GoVal T))
  | arraySource (elems : List (GoVal T))
  | mapSource (entries : List (GoVal T × GoVal T))
  | scalar (v : GoVal T)

/-- Element loop of the reflection slice/array branches of FlowOf
(flow.go): each element must be a T, otherwise the call panics naming the
offending index. -/
def FlowOfElems {T : Type} (container : String) :
    Nat → List (GoVal T) → Except String (List T)
  | _, [] => .ok []
  | i, .ofT v :: rest => (FlowOfElems container (i + 1) rest).map (v :: ·)
  | i, .notT :: _ =>
    .error ("FlowOf: " ++ container ++ " element " ++ toString i ++
      " is not of type T")

/-- Key loop of the map branch of FlowOf (flow.go): a key of type T is
yielded; for a key of another type the entry's value is yielded instead
when it is a T; otherwise the call panics. -/
def FlowOfMapEntries {T : Type} :
    List (GoVal T × GoVal T) → Except String (List T)
  | [] => .ok []
  | (.ofT key, _) :: rest => (FlowOfMapEntries rest).map (key :: ·)
  | (.notT, .ofT v) :: rest => (FlowOfMapEntries rest).map (v :: ·)
  | (.notT, .notT) :: _ => .error "FlowOf: map elements are not of type T"

/-- FlowOf (flow.go), single-source path (`rest` empty): a nil source
gives Empty; then the type switch (an existing Flow returned as-is, a
`[]T`, a single T) and the reflection branches (slice, array, map) follow
in source order; a source matching none of the shapes panics with a
type-mismatch message. -/
def FlowOf {T : Type} : FlowSource T → Except String (List T)
  | .nilSource => .ok []
  | .flowSource elems => .ok elems
  | .scalar (.ofT v) => .ok [v]
  | .sliceSource elems => FlowOfElems "slice" 0 elems
  | .arraySource elems => FlowOfElems "array" 0 elems
  | .mapSource entries => FlowOfMapEntries entries
  | .scalar .notT => .error "FlowOf: cannot convert source to Flow"

/- Helper lemmas. -/

lemma flowOfElems_all_ofT {T : Type} (container : String) (elems : List T) :
    ∀ i : Nat, FlowOfElems container i (elems.map GoVal.ofT) = .ok elems := by
  induction elems with
  | nil => intro i; rfl
  | cons v rest ih =>
    intro i
    simp only [List.map_cons, FlowOfElems, ih (i + 1)]
    rfl

lemma flowOfMapEntries_keys {T : Type} (entries : List (T × GoVal T)) :
    FlowOfMapEntries (entries.map fun e => (GoVal.ofT e.1, e.2)) =
      .ok (entries.map Prod.fst) := by
  induction entries with
  | nil => rfl
  | cons e rest ih => simp only [List.map_cons, FlowOfMapEntries, ih]; rfl

lemma flowOfMapEntries_values {T : Type} (values : List T) :
    FlowOfMapEntries (values.map fun v => (GoVal.notT, GoVal.ofT v)) =
      .ok values := by
  induction values with
  | nil => rfl
  | cons v rest ih => simp only [List.map_cons, FlowOfMapEntries, ih]; rfl

lemma takeCollectLoop_infinite {T : Type} (generator : Nat → T) :
    ∀ (k i : Nat),
      TakeCollectLoop (Infinite generator) i k =
        (List.range k).map fun j => generator (i + j) := by
  intro k
  induction k with
  | zero => intro i; rfl
  | succ m ih =>
    intro i
    rw [List.range_succ_eq_map]
    simp only [TakeCollectLoop, Infinite, List.map_cons, Nat.add_zero, List.map_map]
    rw [ih (i + 1)]
    refine congrArg (generator i :: ·) (List.map_congr_left fun j _ => ?_)
    simp only [Function.comp_apply, Nat.succ_eq_add_one]
    rw [Nat.add_assoc, Nat.add_comm 1 j]

lemma groupByLoop_filter {T K : Type} [DecidableEq K] (keyFunc : T → K) :
    ∀ (l : List T) (result : K → List T) (k : K),
      GroupByLoop keyFunc result l k =
        result k ++ l.filter fun val => decide (keyFunc val = k) := by
  intro l
  induction l with
  | nil => intro result k; simp [GroupByLoop]
  | cons val rest ih =>
    intro result k
    simp only [GroupByLoop]
    rw [ih]
    by_cases h : keyFunc val = k
    · subst h
      simp [List.filter_cons]
    · have h2 : ¬k = keyFunc val := fun hk => h hk.symm
      simp [List.filter_cons, h, h2]

lemma windowDrain_small {T : Type} (size step fuel : Nat) (buffer : List T)
    (h : buffer.length < size) :
    WindowDrain size step fuel buffer = ([], buffer) := by
  cases fuel with
  | zero => rfl
  | succ k => simp [WindowDrain, not_le.mpr h]

lemma windowDrain_full {T : Type} (size step fuel : Nat) (buffer : List T)
    (hpos : 0 < size) (hfuel : 0 < fuel) (hlen : buffer.length = size)
    (hstep : size ≤ step) :
    WindowDrain size step fuel buffer = ([buffer], []) := by
  cases fuel with
  | zero => exact absurd hfuel (lt_irrefl 0)
  | succ k =>
    have h1 : size ≤ buffer.length := le_of_eq hlen.symm
    have h2 : buffer.length ≤ step := hlen ▸ hstep
    have h3 : WindowDrain size step k ([] : List T) = ([], []) :=
      windowDrain_small size step k [] (by simpa using hpos)
    have h4 : buffer.take size = buffer := by
      rw [← hlen]; exact List.take_length buffer
    simp [WindowDrain, h1, h2, h3, h4]

lemma windowLoop_tumbling {T : Type} (size step : Nat) (hpos : 0 < size)
    (hstep : size ≤ step) :
    ∀ (l b : List T), b.length < size →
      WindowLoop size step b l = WindowLoop size size b l := by
  intro l
  induction l with
  | nil => intro b _; rfl
  | cons v rest ih =>
    intro b hb
    have hble : (b ++ [v]).length ≤ size := by
      simp only [List.length_append, List.length_cons, List.length_nil]
      omega
    rcases lt_or_eq_of_le hble with hlt | heq
    · simp only [WindowLoop]
      rw [windowDrain_small size step _ _ hlt, windowDrain_small size size _ _ hlt]
      exact ih (b ++ [v]) hlt
    · simp only [WindowLoop]
      rw [windowDrain_full size step _ _ hpos (by simp) heq hstep,
        windowDrain_full size size _ _ hpos (by simp) heq le_rfl]
      dsimp only
      rw [ih [] (by simpa using hpos)]

lemma combine_length {T U : Type} (l1 : List T) (l2 : List U) :
    (Combine l1 l2).length = min l1.length l2.length := by
  induction l1 generalizing l2 with
  | nil => cases l2 <;> simp [Combine]
  | cons a as ih =>
    cases l2 with
    | nil => simp [Combine]
    | cons b bs => simp [Combine, ih, Nat.succ_min_succ]

lemma combine_get? {T U : Type} (l1 : List T) (l2 : List U) (i : Nat) :
    (Combine l1 l2).get? i =
      (l1.get? i).bind fun a => (l2.get? i).map fun b => Pair.mk a b := by
  induction l1 generalizing l2 i with
  | nil => cases l2 <;> simp [Combine]
  | cons a as ih =>
    cases l2 with
    | nil => simp [Combine]
    | cons b bs =>
      cases i with
      | zero => simp [Combine]
      | succ j => simpa [Combine] using ih bs j

lemma combineWith_get? {T U R : Type} (combiner : T → U → R)
    (l1 : List T) (l2 : List U) (i : Nat) :
    (CombineWith combiner l1 l2).get? i =
      (l1.get? i).bind fun a => (l2.get? i).map fun b => combiner a b := by
  induction l1 generalizing l2 i with
  | nil => cases l2 <;> simp [CombineWith]
  | cons a as ih =>
    cases l2 with
    | nil => simp [CombineWith]
    | cons b bs =>
      cases i with
      | zero => simp [CombineWith]
      | succ j => simpa [CombineWith] using ih bs j

lemma combineWith_eq_map_combine {T U R : Type} (combiner : T → U → R)
    (l1 : List T) (l2 : List U) :
    CombineWith combiner l1 l2 =
      (Combine l1 l2).map fun p => combiner p.first p.second := by
  induction l1 generalizing l2 with
  | nil => cases l2 <;> simp [Combine, CombineWith]
  | cons a as ih =>
    cases l2 with
    | nil => simp [Combine, CombineWith]
    | cons b bs => simp [Combine, CombineWith, ih]

lemma takeWhile_eq {T : Type} (p : T → Bool) (l : List T) :
    TakeWhile p l = l.takeWhile p := by
  induction l with
  | nil => rfl
  | cons a as ih =>
    by_cases h : p a = true <;> simp [TakeWhile, List.takeWhile_cons, h, ih]

lemma skipWhileLoop_false {T : Type} (p : T → Bool) (l : List T) :
    SkipWhileLoop p false l = l := by
  induction l with
  | nil => rfl
  | cons a as ih => simp [SkipWhileLoop, ih]

lemma skipWhile_eq {T : Type} (p : T → Bool) (l : List T) :
    SkipWhile p l = l.dropWhile p := by
  unfold SkipWhile
  induction l with
  | nil => rfl
  | cons a as ih =>
    by_cases h : p a = true <;>
      simp [SkipWhileLoop, List.dropWhile_cons, h, ih, skipWhileLoop_false]

lemma skipLoop_of_le {T : Type} (n count : Int) (h : n ≤ count) (l : List T) :
    SkipLoop n count l = l := by
  induction l with
  | nil => rfl
  | cons a as ih => simp [SkipLoop, not_lt.mpr h, ih]

/- Claim theorems C3, C6, C7, C9, C10. -/

/-- C3: Combine yields exactly `min (len l1) (len l2)` pairs, the i-th
being the pair of the i-th elements of each source (truncating, never
padding the shorter), and CombineWith yields the combiner applied at the
same index range. -/
theorem combine_zip_spec {T U R : Type} (l1 : List T) (l2 : List U)
    (combiner : T → U → R) :
    (Combine l1 l2).length = min l1.length l2.length ∧
    (∀ i : Nat, (Combine l1 l2).get? i =
      (l1.get? i).bind fun a => (l2.get? i).map fun b => Pair.mk a b) ∧
    (CombineWith combiner l1 l2).length = min l1.length l2.length ∧
    (∀ i : Nat, (CombineWith combiner l1 l2).get? i =
      (l1.get? i).bind fun a => (l2.get? i).map fun b => combiner a b) := by
  refine ⟨combine_length l1 l2, combine_get? l1 l2, ?_, combineWith_get? combiner l1 l2⟩
  rw [combineWith_eq_map_combine, List.length_map, combine_length]

/-- C6: TakeWhile yields exactly the maximal prefix satisfying the
predicate and stops permanently; SkipWhile yields exactly the suffix from
the first failing element onward; their concatenation reproduces the
source. -/
theorem takeWhile_skipWhile_spec {T : Type} (p : T → Bool) (l : List T) :
    TakeWhile p l = l.takeWhile p ∧
    SkipWhile p l = l.dropWhile p ∧
    TakeWhile p l ++ SkipWhile p l = l := by
  refine ⟨takeWhile_eq p l, skipWhile_eq p l, ?_⟩
  rw [takeWhile_eq, skipWhile_eq, List.takeWhile_append_dropWhile]

/-- C7: standalone Merge concatenates the listed flows in order, with zero
arguments it yields the empty flow; the bound method Merge with zero
additional flows returns the receiver itself, and in general yields the
receiver followed by the others in listed order. -/
theorem merge_spec {T : Type} (flows : List (List T)) (f : List T)
    (others : List (List T)) :
    Merge flows = flows.foldr (· ++ ·) [] ∧
    Merge ([] : List (List T)) = [] ∧
    MergeMethod f others = (f :: others).foldr (· ++ ·) [] ∧
    MergeMethod f [] = f := by
  have hloop : ∀ (fs : List (List T)), MergeLoop fs = fs.foldr (· ++ ·) [] := by
    intro fs
    induction fs with
    | nil => rfl
    | cons g gs ih => simp [MergeLoop, ih]
  refine ⟨?_, rfl, ?_, ?_⟩
  · cases flows with
    | nil => rfl
    | cons g gs => simp [Merge, hloop]
  · cases others with
    | nil => simp [MergeMethod]
    | cons g gs => simp [MergeMethod, hloop]
  · rfl

/-- C5: Chunk with `size <= 0` fails at construction with the same error
on every source (so before any element is consumed), Window likewise for
`size <= 0` or `step <= 0`, and for positive arguments both constructions
succeed, so the failure branches are unreachable. -/
theorem construction_guard_spec {T : Type} (size step : Int) (l : List T) :
    (size ≤ 0 → Chunk l size = .error "chunk size must be positive") ∧
    (size ≤ 0 → Window l size step = .error "window size must be positive") ∧
    (0 < size → step ≤ 0 → Window l size step = .error "window step must be positive") ∧
    (0 < size → ∃ cs, Chunk l size = .ok cs) ∧
    (0 < size → 0 < step → ∃ ws, Window l size step = .ok ws) := by
  refine ⟨fun h => ?_, fun h => ?_, fun h1 h2 => ?_, fun h => ?_, fun h1 h2 => ?_⟩
  · simp [Chunk, h]
  · simp [Window, h]
  · simp [Window, not_le.mpr h1, h2]
  · exact ⟨ChunkLoop size.toNat [] l, by simp [Chunk, not_le.mpr h]⟩
  · exact ⟨WindowLoop size.toNat step.toNat [] l,
      by simp [Window, not_le.mpr h1, not_le.mpr h2]⟩

/-- Witness for C5: Chunk at size `-1` fails with the configuration
error on a nonempty source, and Window at size 2, step 3 constructs
successfully. -/
theorem construction_guard_witness :
    Chunk ([1, 2] : List Nat) (-1) = .error "chunk size must be positive" ∧
    (∃ ws, Window ([1, 2] : List Nat) 2 3 = .ok ws) :=
  ⟨(construction_guard_spec (-1) 1 [1, 2]).1 (by decide),
   (construction_guard_spec 2 3 [1, 2]).2.2.2.2 (by decide) (by decide)⟩

/-- C2 counterexample: Window over `[1..10]` with size 2, step 3 yields
the five adjacent windows `[1,2],[3,4],[5,6],[7,8],[9,10]` (at yield time
the buffer holds exactly `size` elements, so clearing it skips nothing
beyond the window itself), not the three gapped windows starting at the
1st, 4th and 7th elements that the claim asserts. -/
theorem window_gapped_counterexample :
    Window ([1, 2, 3, 4, 5, 6, 7, 8, 9, 10] : List Nat) 2 3 =
      .ok [[1, 2], [3, 4], [5, 6], [7, 8], [9, 10]] ∧
    ([[1, 2], [3, 4], [5, 6], [7, 8], [9, 10]] : List (List Nat)) ≠
      [[1, 2], [4, 5], [7, 8]] := by
  exact ⟨rfl, by decide⟩

/-- C2 amended: after yielding a window the buffer advances by
`min step size` elements (the buffer holds exactly `size` elements at
yield time, and clearing counts as advancing by `size`), so Window with
`step > size` behaves identically to the tumbling `step = size`; windows
are never gapped. -/
theorem window_step_min_spec {T : Type} (l : List T) (size step : Int) :
    Window l size step = Window l size (min step size) := by
  by_cases hs : size ≤ 0
  · simp [Window, hs]
  · by_cases hst : step ≤ 0
    · have hmin : min step size ≤ 0 := le_trans (min_le_left _ _) hst
      simp [Window, hs, hst, hmin]
    · by_cases hss : step ≤ size
      · rw [min_eq_left hss]
      · rw [min_eq_right (le_of_lt (not_le.mp hss))]
        have h1 : ¬size ≤ (0 : Int) := hs
        have h2 : ¬step ≤ (0 : Int) := hst
        simp only [Window, if_neg h1, if_neg h2]
        have hpos : 0 < size.toNat := by omega
        have hle : size.toNat ≤ step.toNat := by omega
        rw [windowLoop_tumbling size.toNat step.toNat hpos hle l []
          (by simpa using hpos)]

/-- C9: Skip with a zero or negative count yields every element of the
source unchanged and in order. -/
theorem skip_nonpos {T : Type} (n : Int) (h : n ≤ 0) (l : List T) :
    Skip n l = l :=
  skipLoop_of_le n 0 h l

/-- Witness for C9 at `n = -1` on a concrete list. -/
theorem skip_nonpos_witness :
    ((-1 : Int) ≤ 0) ∧ Skip (-1) [1, 2, 3] = [1, 2, 3] :=
  ⟨by decide, skip_nonpos (-1) (by decide) [1, 2, 3]⟩

/-- C4: Take with `n <= 0` yields an empty result on any source without
pulling it, and for `0 < n` consuming Take n over an unbounded generator
pipeline terminates (the collecting loop is a total function) and returns
exactly the first n generated elements. -/
theorem take_infinite_spec {T : Type} (src : Src T) (generator : Nat → T)
    (n : Int) :
    (n ≤ 0 → TakeCollect src n = []) ∧
    (0 < n → TakeCollect (Infinite generator) n =
      (List.range n.toNat).map generator) := by
  constructor
  · intro h; simp [TakeCollect, h]
  · intro h
    rw [TakeCollect, if_neg (not_le.mpr h), takeCollectLoop_infinite]
    simp

/-- Witness for C4: Take (-2) of the square generator is empty, and
Take 3 of it collects exactly the first three squares. -/
theorem take_infinite_witness :
    TakeCollect (Infinite fun i => i * i) (-2) = [] ∧
    TakeCollect (Infinite fun i => i * i) 3 = [0, 1, 4] :=
  ⟨(take_infinite_spec (Infinite fun i => i * i) (fun i => i * i) (-2)).1
      (by decide),
   ((take_infinite_spec (Infinite fun i => i * i) (fun i => i * i) 3).2
      (by decide)).trans (by decide)⟩

/-- C1 counterexample: over the source `[1, 2]` with the identity key
function the first-seen key order is `[1, 2]`, yet `[2, 1]` is an equally
admissible runtime enumeration of the Go map's two keys, and under it
GroupByFlow yields the groups in the order `2, 1` — not first-seen key
order. -/
theorem groupByFlow_order_counterexample :
    List.Perm [2, 1] (FirstSeenKeys (fun x : Nat => x) [] [1, 2]) ∧
    GroupByFlow (fun x : Nat => x) [1, 2] [2, 1] =
      [⟨2, [2]⟩, ⟨1, [1]⟩] ∧
    (GroupByFlow (fun x : Nat => x) [1, 2] [2, 1]).map KeyValue.key ≠
      FirstSeenKeys (fun x : Nat => x) [] [1, 2] := by
  refine ⟨by decide, by decide, by decide⟩

/-- C1 amended: GroupBy returns the grouping in which each key's group is
exactly the sequence of source elements producing that key in source
order (within-key insertion order preserved), and GroupByFlow re-exposes
exactly those groups as key/group pairs following the runtime's map
enumeration order — which is unspecified, not first-seen key order. -/
theorem groupBy_spec {T K : Type} [DecidableEq K] (keyFunc : T → K)
    (l : List T) (k : K) (order : List K) :
    GroupBy keyFunc l k = l.filter (fun val => decide (keyFunc val = k)) ∧
    (GroupByFlow keyFunc l order).map KeyValue.key = order ∧
    ∀ kv ∈ GroupByFlow keyFunc l order, kv.value = GroupBy keyFunc l kv.key := by
  refine ⟨?_, ?_, ?_⟩
  · simpa [GroupBy] using groupByLoop_filter keyFunc l (fun _ => []) k
  · rw [GroupByFlow, List.map_map]
    exact List.map_id order
  · intro kv hkv
    rw [GroupByFlow, List.mem_map] at hkv
    obtain ⟨key, _, rfl⟩ := hkv
    rfl

/-- Witness for C1: the grouping of `[1, 2, 3]` by parity at key 1 is
`[1, 3]` in insertion order, and the group re-exposed by GroupByFlow for
the concrete pair at key 0 is its GroupBy group. -/
theorem groupBy_spec_witness :
    GroupBy (fun x : Nat => x % 2) [1, 2, 3] 1 = [1, 3] ∧
    (GroupByFlow (fun x : Nat => x % 2) [1, 2, 3] [0, 1]).map KeyValue.key =
      [0, 1] ∧
    (KeyValue.mk 0 (GroupBy (fun x : Nat => x % 2) [1, 2, 3] 0)).value =
      GroupBy (fun x : Nat => x % 2) [1, 2, 3] 0 :=
  ⟨((groupBy_spec (fun x : Nat => x % 2) [1, 2, 3] 1 [0, 1]).1).trans (by decide),
   (groupBy_spec (fun x : Nat => x % 2) [1, 2, 3] 1 [0, 1]).2.1,
   (groupBy_spec (fun x : Nat => x % 2) [1, 2, 3] 1 [0, 1]).2.2
     ⟨0, GroupBy (fun x : Nat => x % 2) [1, 2, 3] 0⟩ (by decide)⟩

/-- C8: FlowOf returns an existing Flow as-is; yields the elements of a
slice or fixed-size array of T in order; for a map yields the keys when
they are of type T and otherwise the values when those are of type T;
yields a single value of type T as a one-element flow; and fails with a
type-mismatch error, rather than returning a flow, when the source
matches none of these shapes. -/
theorem flowOf_spec {T : Type} (elems : List T) (entries : List (T × GoVal T))
    (values : List T) (v : T) :
    FlowOf (.flowSource elems) = .ok elems ∧
    FlowOf (.sliceSource (elems.map GoVal.ofT)) = .ok elems ∧
    FlowOf (.arraySource (elems.map GoVal.ofT)) = .ok elems ∧
    FlowOf (.mapSource (entries.map fun e => (GoVal.ofT e.1, e.2))) =
      .ok (entries.map Prod.fst) ∧
    FlowOf (.mapSource (values.map fun val => (GoVal.notT, GoVal.ofT val))) =
      .ok values ∧
    FlowOf (.scalar (.ofT v)) = .ok [v] ∧
    FlowOf (T := T) (.scalar .notT) =
      .error "FlowOf: cannot convert source to Flow" :=
  ⟨rfl, flowOfElems_all_ofT "slice" elems 0, flowOfElems_all_ofT "array" elems 0,
   flowOfMapEntries_keys entries, flowOfMapEntries_values values, rfl, rfl⟩

/-- C10: NoneMatch is exactly the boolean negation of AnyMatch, and on the
empty pipeline AllMatch and NoneMatch are true while AnyMatch is false. -/
theorem noneMatch_spec {T : Type} (p : T → Bool) (l : List T) :
    NoneMatch p l = !(AnyMatch p l) ∧
    AnyMatch p ([] : List T) = false ∧
    AllMatch p ([] : List T) = true ∧
    NoneMatch p ([] : List T) = true :=
  ⟨rfl, rfl, rfl, rfl⟩

end Flow
